import Mathlib

/-!
Verification of the `LinAlg::Matrix<T>` single-header linear-algebra library
(`include/LinearAlgebra/Matrix.hpp`) against its natural-language specification.

The C++ class template is shallowly embedded as follows.

* A matrix value is a `Mat α`: the fields `_rows`, `_cols` and the contiguous
  row-major storage `std::vector<T> _matrix` become `rows : Nat`, `cols : Nat`
  and `data : List α`.  The arithmetic operations are modelled at the integer
  instantiation `Mat Int` (C++ `Matrix<int>`, with mathematical integers in
  place of machine integers); the equality algorithm, which branches on
  whether the scalar type is an IEC-559 floating-point type, is modelled over
  `Mat ℚ` with the branch selector and the machine epsilon as parameters.
* `std::size_t` values become `Nat`.  Checks of the form `row < 0` on an
  unsigned quantity are identically false and are dropped from the
  translation (noted where they occur).
* A C++ function that can `throw` becomes a function into `Except MatErr _`.
  The in-place (mutating) member functions additionally report, on failure,
  the observable state of `*this` at the moment the exception escapes, so
  they return `Except (MatErr × Mat Int) (Mat Int)`.
* `std::vector<T>::max_size()` is implementation defined; it is modelled by
  the fixed constant `maxRows = 2 ^ 61`.  The unguarded integer division in
  `max_cols()` (undefined behavior when `_rows == 0`) is modelled by
  `sizeDiv`, which returns `none` on a zero divisor.
* Reading `_matrix[i]` for `i` beyond the vector's size is undefined
  behavior in C++; it is modelled by `List.getD _ 0`, i.e. such reads give
  the scalar zero.  Where a claim is about the validity of the access itself
  the theorem states the relation between the offset and `data.length`.
-/

namespace LinAlg

/-- The error kinds of the specification (§7), corresponding to the
`std::invalid_argument` / `std::out_of_range` / `std::runtime_error` throws
of `Matrix.hpp`, distinguished by the message text. -/
inductive MatErr where
  | invalidShape
  | invalidArgument
  | outOfRange
  | sizeMismatch
  | shapeMismatch
  | notSquare
  | divisionByZero
  | singularMatrix
deriving DecidableEq, Repr

/-- `Matrix<T>`: `_rows`, `_cols`, and the flat row-major storage `_matrix`. -/
structure Mat (α : Type) where
  rows : Nat
  cols : Nat
  data : List α
deriving DecidableEq, Repr

/-- Model of `std::vector<T>::max_size()` (`Matrix<T>::max_rows()`), an
implementation-defined capacity ceiling; any sufficiently large constant
serves, we fix `2 ^ 61`. -/
def maxRows : Nat := 2 ^ 61

/-- C++ unsigned integer division: undefined behavior on divisor `0`,
modelled as `none`. -/
def sizeDiv (a b : Nat) : Option Nat :=
  if b = 0 then none else some (a / b)

/-- `max_cols() { return max_rows() / _rows; }` — the division is unguarded,
so the result is defined (`some`) only when `_rows ≠ 0`. -/
def max_cols (m : Mat α) : Option Nat :=
  sizeDiv maxRows m.rows

/-- `check_rows_arg` (Matrix.hpp:663-671). -/
def check_rows_arg (rows : Nat) : Except MatErr Nat :=
  if rows < maxRows then .ok rows else .error .invalidShape

/-- `check_cols_arg` (Matrix.hpp:673-687).  It is a member function reading
the already-initialized `_rows` field, passed here as `rows`.  The division
inside `max_cols()` is reached only in the `rows ≠ 0` branch, where it is
defined; the `none` arm is unreachable. -/
def check_cols_arg (rows cols : Nat) : Except MatErr Nat :=
  if rows ≠ 0 then
    match sizeDiv maxRows rows with
    | some mc => if cols < mc && cols > 0 then .ok cols else .error .invalidShape
    | none => .error .invalidShape
  else if cols = 0 then .ok cols
  else .error .invalidShape

/-- `check_template_arg` (Matrix.hpp:689-697): `std::is_arithmetic<T> &&
!std::is_const<T>` holds for every instantiation modelled here, so the check
always passes. -/
def check_template_arg (size : Nat) : Except MatErr Nat :=
  .ok size

/-- Default constructor `Matrix()` (Matrix.hpp:145-149): the empty matrix. -/
def mkDefault : Mat Int :=
  { rows := 0, cols := 0, data := [] }

/-- Sized constructor `Matrix(rows, cols)` (Matrix.hpp:151-155): member
initializers run in declaration order — `_rows` via `check_rows_arg`, then
`_cols` via `check_cols_arg` (which reads `_rows`), then `_matrix` as a
value-initialized (all-zero) vector of `rows * cols` elements. -/
def mkSized (rows cols : Nat) : Except MatErr (Mat Int) := do
  let r ← check_rows_arg rows
  let c ← check_cols_arg rows cols
  let n ← check_template_arg (rows * cols)
  .ok { rows := r, cols := c, data := List.replicate n 0 }

/-- Fill constructor `Matrix(rows, cols, value)` (Matrix.hpp:157-162). -/
def mkFill (rows cols : Nat) (value : Int) : Except MatErr (Mat Int) := do
  let r ← check_rows_arg rows
  let c ← check_cols_arg rows cols
  let n ← check_template_arg (rows * cols)
  .ok { rows := r, cols := c, data := List.replicate n value }

/-- Flat-vector constructor `Matrix(rows, cols, v)` (Matrix.hpp:164-171):
after the shape checks, requires `v.size() == _matrix.size()`
(`= rows * cols`), else `std::invalid_argument`. -/
def mkFlat (rows cols : Nat) (v : List Int) : Except MatErr (Mat Int) := do
  let r ← check_rows_arg rows
  let c ← check_cols_arg rows cols
  let n ← check_template_arg (rows * cols)
  if v.length ≠ n then .error .invalidArgument
  else .ok { rows := r, cols := c, data := v }

/-- Nested-initializer-list constructor (Matrix.hpp:173-184): `_rows` is the
outer length and `_cols` the first inner length (`il.begin()->size()`, which
for an empty outer list dereferences `end()` — undefined behavior; the model
uses the head-or-`[]`, callers with an empty outer list are outside the
contract).  Each inner list must have length `_cols`
(`std::invalid_argument` otherwise); rows are concatenated in order.
No shape validation (`check_rows_arg` / `check_cols_arg`) is performed. -/
def fromNested (ll : List (List Int)) : Except MatErr (Mat Int) := do
  let rows := ll.length
  let cols := (ll.head?.getD []).length
  let data ← ll.foldlM
    (fun acc row =>
      if cols ≠ row.length then .error .invalidArgument
      else .ok (acc ++ row))
    ([] : List Int)
  .ok { rows := rows, cols := cols, data := data }

/-- The unchecked accessor `operator()(row, col)` (Matrix.hpp:194-204):
`_matrix[row * _cols + col]`, no bounds check. -/
def elem (m : Mat Int) (row col : Nat) : Int :=
  m.data.getD (row * m.cols + col) 0

/-- The checked accessor `at(row, col)` (Matrix.hpp:331-343).  The source
check is `row < 0 || col < 0 || _rows < row || _cols < col`; the first two
disjuncts are identically false for `std::size_t`. -/
def matAt (m : Mat Int) (row col : Nat) : Except MatErr Int :=
  if m.rows < row || m.cols < col then .error .outOfRange
  else .ok (m.data.getD (row * m.cols + col) 0)

/-- Move constructor `Matrix(Matrix&&)` (Matrix.hpp:186-192): the
destination takes the shape and the storage, the source is reset to
`rows = cols = 0` with its vector left empty by the move.  Returns
`(destination, moved-from source)`. -/
def moveCtor (m : Mat Int) : Mat Int × Mat Int :=
  ({ rows := m.rows, cols := m.cols, data := m.data },
   { rows := 0, cols := 0, data := [] })

/-- Move assignment `operator=(Matrix&&)` (Matrix.hpp:206-218): guarded by a
self-assignment check (`this != &other`, modelled by `same`); otherwise the
destination takes shape and storage and the source is reset to empty.
Returns `(destination, source)` after the call. -/
def moveAssign (dst src : Mat Int) (same : Bool) : Mat Int × Mat Int :=
  if same then (dst, src)
  else ({ rows := src.rows, cols := src.cols, data := src.data },
        { rows := 0, cols := 0, data := [] })

/-- `operator*(T value)` (Matrix.hpp:220-226): copies `*this`, then scales
every element in place — an independent per-element loop, written as a map. -/
def mulScalar (m : Mat Int) (value : Int) : Mat Int :=
  { m with data := m.data.map (· * value) }

/-- `operator/(T value)` (Matrix.hpp:228-235): throws on an exact-zero
divisor (`value == T()`), otherwise copies and divides every element.
C++ integer division truncates toward zero: `Int.tdiv`. -/
def divScalar (m : Mat Int) (value : Int) : Except MatErr (Mat Int) :=
  if value = 0 then .error .divisionByZero
  else .ok { m with data := m.data.map (fun x => Int.tdiv x value) }

/-- `operator*=(T value)` (Matrix.hpp:237-242): in place, never throws. -/
def mulAssignScalar (m : Mat Int) (value : Int) : Mat Int :=
  { m with data := m.data.map (· * value) }

/-- `operator/=(T value)` (Matrix.hpp:244-250): the zero check precedes any
element write, so on failure the observable state is the input. -/
def divAssignScalar (m : Mat Int) (value : Int) :
    Except (MatErr × Mat Int) (Mat Int) :=
  if value = 0 then .error (.divisionByZero, m)
  else .ok { m with data := m.data.map (fun x => Int.tdiv x value) }

/-- Unary `operator-` (Matrix.hpp:252-256): `(*this) * -1`. -/
def negM (m : Mat Int) : Mat Int :=
  mulScalar m (-1)

/-- `operator+(const Matrix&)` (Matrix.hpp:258-270): shape check, then a
copy of `*this` with `other` added cell by cell over the index rectangle
`[0, rows) × [0, cols)` (offsets `[0, rows*cols)`); vector positions beyond
that rectangle — none exist under the length invariant — are untouched. -/
def addM (m o : Mat Int) : Except MatErr (Mat Int) :=
  if m.rows ≠ o.rows || m.cols ≠ o.cols then .error .shapeMismatch
  else .ok { m with data :=
    (List.range m.data.length).map (fun p =>
      if p < m.rows * m.cols then m.data.getD p 0 + o.data.getD p 0
      else m.data.getD p 0) }

/-- `operator-(const Matrix&)` (Matrix.hpp:272-278): a copy of `other` is
negated and added: `*this + (-tempMatrix)`. -/
def subM (m o : Mat Int) : Except MatErr (Mat Int) :=
  addM m (negM o)

/-- The dot product accumulated by the innermost loop of `operator*`
(Matrix.hpp:287-289), with the accumulator starting from the
zero-initialized result cell. -/
def dotCell (a b : Mat Int) (i j : Nat) : Int :=
  (List.range a.cols).foldl (fun acc k => acc + elem a i k * elem b k j) 0

/-- `operator*(const Matrix&)` (Matrix.hpp:280-293): inner-dimension check
(`_cols != other._rows` → throw), then the result is built by the sized
constructor `Matrix(_rows, other._cols)` — whose own validation can throw —
and each cell `(i, j)` accumulates the dot product of row `i` of `*this`
and column `j` of `other`.  The cell writes are independent, written as a
map over the flat offsets (`p = i * other._cols + j`). -/
def mulM (a b : Mat Int) : Except MatErr (Mat Int) :=
  if a.cols ≠ b.rows then .error .shapeMismatch
  else do
    let r ← mkSized a.rows b.cols
    .ok { r with data :=
      (List.range r.data.length).map fun p => dotCell a b (p / b.cols) (p % b.cols) }

/-- Attaches the pre-call state to a failing computation: models
`*this = <binary op>;` — when the binary operation throws, the assignment
never executes and `*this` is observed unchanged. -/
def inPlace (m : Mat Int) :
    Except MatErr (Mat Int) → Except (MatErr × Mat Int) (Mat Int)
  | .ok r => .ok r
  | .error e => .error (e, m)

/-- `operator+=` (Matrix.hpp:303-308): `*this = *this + other`. -/
def addAssign (m o : Mat Int) : Except (MatErr × Mat Int) (Mat Int) :=
  inPlace m (addM m o)

/-- `operator-=` (Matrix.hpp:310-315): `*this = *this - other`. -/
def subAssign (m o : Mat Int) : Except (MatErr × Mat Int) (Mat Int) :=
  inPlace m (subM m o)

/-- `operator*=` (Matrix.hpp:317-322): `*this = *this * other`. -/
def mulAssign (m o : Mat Int) : Except (MatErr × Mat Int) (Mat Int) :=
  inPlace m (mulM m o)

/-- `LinAlg::areEqual` (Matrix.hpp:112-120): for IEC-559 (floating-point)
scalar types, relative scaled-epsilon comparison
`|a-b| <= max(|a|,|b|) * epsilon`; for the other (integer) scalar types,
exact `==`.  The compile-time branch selector and the machine epsilon are
parameters; scalars are modelled by `ℚ`. -/
def areEqual (iec : Bool) (eps a b : ℚ) : Bool :=
  if iec then decide (|a - b| ≤ max |a| |b| * eps) else a == b

/-- The unchecked element read of a rational matrix (the equality loop uses
`at(i, j)` at indices that always pass its check). -/
def qelem (m : Mat ℚ) (i j : Nat) : ℚ :=
  m.data.getD (i * m.cols + j) 0

/-- The shape check and element loop of `operator==` (Matrix.hpp:126-133):
`false` on a shape mismatch, otherwise every corresponding element pair must
satisfy `areEqual` (the loop's early `return false` is `List.all`). -/
def matrixEqCode (iec : Bool) (eps : ℚ) (l r : Mat ℚ) : Bool :=
  if l.rows ≠ r.rows || l.cols ≠ r.cols then false
  else
    (List.range l.rows).all fun i =>
      (List.range l.cols).all fun j =>
        areEqual iec eps (qelem l i j) (qelem r i j)

/-- `operator==` (Matrix.hpp:122-134) with its identity short-circuit
`&lhs == &rhs` (line 125) modelled by `same`. -/
def matrixEq (same iec : Bool) (eps : ℚ) (l r : Mat ℚ) : Bool :=
  if same then true else matrixEqCode iec eps l r

/-- `set_identity` (Matrix.hpp:345-355): requires square; builds a vector of
`vector_size()` zeros with `1` at every offset that is a multiple of
`_rows + 1`, then assigns `Matrix(_rows, _cols, identityVector)` — the flat
constructor re-validates the shape, and if it throws, the assignment never
commits. -/
def set_identityE (m : Mat Int) : Except (MatErr × Mat Int) (Mat Int) :=
  if m.rows ≠ m.cols then .error (.notSquare, m)
  else
    let iv := (List.range m.data.length).map fun p =>
      if p % (m.rows + 1) = 0 then (1 : Int) else 0
    inPlace m (mkFlat m.rows m.cols iv)

/-- `set_zero` (Matrix.hpp:357-361): `*this = Matrix(_rows, _cols)`; the
sized constructor re-validates the current shape. -/
def set_zeroE (m : Mat Int) : Except (MatErr × Mat Int) (Mat Int) :=
  inPlace m (mkSized m.rows m.cols)

/-- `set_diag(std::vector)` (Matrix.hpp:363-373): requires square and
`v.size() == _rows`; then `set_zero()` followed by writing `v[j]` at offset
`j * (_rows + 1)` for every such offset below `vector_size()`.  The
initializer-list overload (Matrix.hpp:375-386) is semantically identical
and is covered by this model. -/
def set_diagE (m : Mat Int) (v : List Int) : Except (MatErr × Mat Int) (Mat Int) :=
  if m.rows ≠ m.cols then .error (.notSquare, m)
  else if v.length ≠ m.rows then .error (.sizeMismatch, m)
  else
    match set_zeroE m with
    | .error e => .error e
    | .ok z => .ok { z with data :=
        (List.range z.data.length).map (fun p =>
          if p % (m.rows + 1) = 0 then v.getD (p / (m.rows + 1)) 0
          else z.data.getD p 0) }

/-- `set_row(row, value)` (Matrix.hpp:388-396): bound check, then fills the
offsets `[row * _cols, (row + 1) * _cols)` with `value`. -/
def set_rowFill (m : Mat Int) (row : Nat) (value : Int) :
    Except (MatErr × Mat Int) (Mat Int) :=
  if row ≥ m.rows then .error (.outOfRange, m)
  else .ok { m with data :=
    (List.range m.data.length).map (fun p =>
      if row * m.cols ≤ p ∧ p < (row + 1) * m.cols then value
      else m.data.getD p 0) }

/-- `set_row(row, v)` (Matrix.hpp:398-407): the length check
(`v.size() != _cols`) precedes the bound check; writes `v[j]` at offset
`row * _cols + j`.  The initializer-list overload (Matrix.hpp:409-419) is
identical. -/
def set_rowVec (m : Mat Int) (row : Nat) (v : List Int) :
    Except (MatErr × Mat Int) (Mat Int) :=
  if v.length ≠ m.cols then .error (.sizeMismatch, m)
  else if row ≥ m.rows then .error (.outOfRange, m)
  else .ok { m with data :=
    (List.range m.data.length).map (fun p =>
      if row * m.cols ≤ p ∧ p < (row + 1) * m.cols then v.getD (p - row * m.cols) 0
      else m.data.getD p 0) }

/-- `set_col(col, value)` (Matrix.hpp:421-429): bound check, then fills the
offsets congruent to `col` modulo `_cols` (the source loop strides by
`_cols` up to `(_rows - 1) * _cols + col + 1`; for `_rows = 0` that bound
underflows `std::size_t` and the loop reads out of bounds — undefined
behavior; the model's map over the empty storage is benign there). -/
def set_colFill (m : Mat Int) (col : Nat) (value : Int) :
    Except (MatErr × Mat Int) (Mat Int) :=
  if col ≥ m.cols then .error (.outOfRange, m)
  else .ok { m with data :=
    (List.range m.data.length).map fun p =>
      if p % m.cols = col then value else m.data.getD p 0 }

/-- `set_col(col, v)` (Matrix.hpp:431-440): length check
(`v.size() != _rows`) first, then bound check; writes `v[t]` at offset
`t * _cols + col`.  The initializer-list overload (Matrix.hpp:442-452) is
identical. -/
def set_colVec (m : Mat Int) (col : Nat) (v : List Int) :
    Except (MatErr × Mat Int) (Mat Int) :=
  if v.length ≠ m.rows then .error (.sizeMismatch, m)
  else if col ≥ m.cols then .error (.outOfRange, m)
  else .ok { m with data :=
    (List.range m.data.length).map fun p =>
      if p % m.cols = col then v.getD (p / m.cols) 0 else m.data.getD p 0 }

/-- `get_row` (Matrix.hpp:454-464). -/
def get_rowE (m : Mat Int) (row : Nat) : Except MatErr (List Int) :=
  if row ≥ m.rows then .error .outOfRange
  else .ok ((List.range m.cols).map fun j => m.data.getD (row * m.cols + j) 0)

/-- `get_col` (Matrix.hpp:466-476). -/
def get_colE (m : Mat Int) (col : Nat) : Except MatErr (List Int) :=
  if col ≥ m.cols then .error .outOfRange
  else .ok ((List.range m.rows).map fun i => m.data.getD (i * m.cols + col) 0)

/-- `transpose` (Matrix.hpp:478-490): swaps `_rows`/`_cols` (the new row
count `r` is the old `_cols`, the new column count `c` is the old `_rows`),
then fills a zero vector of length `vector_size()` in row-major order of the
new shape with `_matrix[i + j * r]` for new position `(i, j)`
(`i = p / c`, `j = p % c`), and assigns it to the storage.  Never throws. -/
def transposeM (m : Mat Int) : Mat Int :=
  let r := m.cols
  let c := m.rows
  { rows := r, cols := c, data :=
    (List.range m.data.length).map fun p =>
      if p < r * c then m.data.getD (p / c + (p % c) * r) 0 else 0 }

/-- `swap_row` (Matrix.hpp:514-524): both bounds checked; the element swap
loop runs only when the two indices differ (equal indices: validated
no-op); the two rows are disjoint offset ranges, so the pairwise
`std::swap`s amount to a simultaneous exchange. -/
def swap_rowE (m : Mat Int) (lhsRow rhsRow : Nat) :
    Except (MatErr × Mat Int) (Mat Int) :=
  if lhsRow ≥ m.rows ∨ rhsRow ≥ m.rows then .error (.outOfRange, m)
  else if lhsRow = rhsRow then .ok m
  else .ok { m with data :=
    (List.range m.data.length).map (fun p =>
      if lhsRow * m.cols ≤ p ∧ p < (lhsRow + 1) * m.cols then
        m.data.getD (rhsRow * m.cols + (p - lhsRow * m.cols)) 0
      else if rhsRow * m.cols ≤ p ∧ p < (rhsRow + 1) * m.cols then
        m.data.getD (lhsRow * m.cols + (p - rhsRow * m.cols)) 0
      else m.data.getD p 0) }

/-- `swap_col` (Matrix.hpp:526-536): as `swap_row`, over the offsets
congruent to the two column indices modulo `_cols`. -/
def swap_colE (m : Mat Int) (lhsCol rhsCol : Nat) :
    Except (MatErr × Mat Int) (Mat Int) :=
  if lhsCol ≥ m.cols ∨ rhsCol ≥ m.cols then .error (.outOfRange, m)
  else if lhsCol = rhsCol then .ok m
  else .ok { m with data :=
    (List.range m.data.length).map (fun p =>
      if p % m.cols = lhsCol then m.data.getD (p - lhsCol + rhsCol) 0
      else if p % m.cols = rhsCol then m.data.getD (p - rhsCol + lhsCol) 0
      else m.data.getD p 0) }

/-- `mult_row` (Matrix.hpp:538-546): bound check, then scales the offsets
`[row * _cols, (row + 1) * _cols)` by `value`. -/
def mult_rowE (m : Mat Int) (row : Nat) (value : Int) :
    Except (MatErr × Mat Int) (Mat Int) :=
  if row ≥ m.rows then .error (.outOfRange, m)
  else .ok { m with data :=
    (List.range m.data.length).map (fun p =>
      if row * m.cols ≤ p ∧ p < (row + 1) * m.cols then m.data.getD p 0 * value
      else m.data.getD p 0) }

/-- `mult_col` (Matrix.hpp:548-556): bound check, then scales the offsets
congruent to `col` modulo `_cols` by `value` (same `_rows = 0` underflow
caveat as `set_col`). -/
def mult_colE (m : Mat Int) (col : Nat) (value : Int) :
    Except (MatErr × Mat Int) (Mat Int) :=
  if col ≥ m.cols then .error (.outOfRange, m)
  else .ok { m with data :=
    (List.range m.data.length).map fun p =>
      if p % m.cols = col then m.data.getD p 0 * value else m.data.getD p 0 }

/-- The element loop of `add_row` (Matrix.hpp:567-569), transcribed as the
sequential left-to-right in-place updates: iteration `t` replaces the value
at offset `lhsRow * _cols + t` by itself plus `value` times the value at
offset `rhsRow * _cols + t` *in the current state*. -/
def addRowLoop (k : Int) (cols dst src : Nat) : Nat → List Int → List Int
  | 0, d => d
  | t + 1, d =>
    let d1 := addRowLoop k cols dst src t d
    d1.set (dst * cols + t) (d1.getD (dst * cols + t) 0 + k * d1.getD (src * cols + t) 0)

/-- `add_row(lhsRow, rhsRow, value)` (Matrix.hpp:558-572): both bounds
checked first; nothing happens when `value` is the exact scalar zero; when
the two rows coincide it delegates to `mult_row(lhsRow, value + 1)`;
otherwise the element loop adds `value * row[rhsRow]` into `row[lhsRow]`. -/
def add_rowE (m : Mat Int) (lhsRow rhsRow : Nat) (value : Int) :
    Except (MatErr × Mat Int) (Mat Int) :=
  if lhsRow ≥ m.rows ∨ rhsRow ≥ m.rows then .error (.outOfRange, m)
  else if value ≠ 0 then
    if lhsRow = rhsRow then mult_rowE m lhsRow (value + 1)
    else .ok { m with data := addRowLoop value m.cols lhsRow rhsRow m.cols m.data }
  else .ok m

/-- The element loop of `add_col` (Matrix.hpp:583-585): iteration `t`
updates offset `t * _cols + lhsCol` from offset `t * _cols + rhsCol`; the
source loop runs `_rows` iterations (for `_rows = 0` its stop bound
underflows `std::size_t` and the first access is already out of bounds —
undefined behavior; the model runs zero iterations there). -/
def addColLoop (k : Int) (cols dst src : Nat) : Nat → List Int → List Int
  | 0, d => d
  | t + 1, d =>
    let d1 := addColLoop k cols dst src t d
    d1.set (t * cols + dst) (d1.getD (t * cols + dst) 0 + k * d1.getD (t * cols + src) 0)

/-- `add_col(lhsCol, rhsCol, value)` (Matrix.hpp:574-588): mirror of
`add_row` over columns. -/
def add_colE (m : Mat Int) (lhsCol rhsCol : Nat) (value : Int) :
    Except (MatErr × Mat Int) (Mat Int) :=
  if lhsCol ≥ m.cols ∨ rhsCol ≥ m.cols then .error (.outOfRange, m)
  else if value ≠ 0 then
    if lhsCol = rhsCol then mult_colE m lhsCol (value + 1)
    else .ok { m with data := addColLoop value m.cols lhsCol rhsCol m.rows m.data }
  else .ok m

/-- The vector built by the element loops of `minor` (Matrix.hpp:621-628):
every `at(i, j)` with `i ≠ row`, `j ≠ col`, in row-major order. -/
def minorData (m : Mat Int) (row col : Nat) : List Int :=
  ((List.range m.rows).filter (fun i => i ≠ row)).flatMap fun i =>
    ((List.range m.cols).filter (fun j => j ≠ col)).map fun j =>
      m.data.getD (i * m.cols + j) 0

/-- `minor(row, col)` (Matrix.hpp:614-630): requires square and in-range
indices, then builds `Matrix(_rows - 1, _cols - 1, tempVector)` through the
flat constructor (which re-validates the reduced shape). -/
def minorE (m : Mat Int) (row col : Nat) : Except MatErr (Mat Int) :=
  if m.rows ≠ m.cols then .error .notSquare
  else if row ≥ m.rows then .error .outOfRange
  else if col ≥ m.cols then .error .outOfRange
  else mkFlat (m.rows - 1) (m.cols - 1) (minorData m row col)

/-- `determinant()` (Matrix.hpp:596-612), made structurally recursive with a
fuel parameter: every call supplies `fuel > _rows` (the top-level entry uses
`_rows + 1`; the Laplace branch hands `fuel - 1 ≥ _rows > _rows - 1` to the
`(n-1)×(n-1)` minors), so the fuel-exhausted arm is unreachable.  Branches:
not square → throw; 1×1 → `at(0,0)`; 2×2 → `at(0,0)*at(1,1) -
at(0,1)*at(1,0)`; otherwise the first-row Laplace expansion
`Σ_i _matrix[i] * cofactor(0, i)` with a zero-initialized accumulator, the
cofactor inlined as `(-1)^(0+i) * minor(0, i).determinant()`. -/
def detAux : Nat → Mat Int → Except MatErr Int
  | 0, _ => .error .notSquare
  | fuel + 1, m =>
    if m.rows ≠ m.cols then .error .notSquare
    else if m.rows = 1 then matAt m 0 0
    else if m.rows = 2 then do
      let a ← matAt m 0 0
      let d ← matAt m 1 1
      let b ← matAt m 0 1
      let c ← matAt m 1 0
      .ok (a * d - b * c)
    else
      (List.range m.cols).foldlM
        (fun acc i => do
          let mm ← minorE m 0 i
          let dm ← detAux fuel mm
          .ok (acc + m.data.getD i 0 * ((-1 : Int) ^ (0 + i) * dm)))
        0

/-- `determinant()` entry point. -/
def determinant (m : Mat Int) : Except MatErr Int :=
  detAux (m.rows + 1) m

/-- `cofactor(row, col)` (Matrix.hpp:590-594):
`std::pow(-1, row + col) * minor(row, col).determinant()` — the
double-valued `std::pow(-1, k)` is exactly `±1`, and the multiplication and
conversion back to the integer scalar are exact for in-range values, so the
sign is modelled as `(-1 : Int) ^ (row + col)`. -/
def cofactorE (m : Mat Int) (row col : Nat) : Except MatErr Int := do
  let mm ← minorE m row col
  let dm ← determinant mm
  .ok ((-1 : Int) ^ (row + col) * dm)

/-- `adjoint()` (Matrix.hpp:632-651): requires square; 1×1 is special-cased
to the literal `{{1}}` and 2×2 to the classical closed form (both built by
the nested-initializer-list constructor); otherwise a sized `Matrix(_rows,
_cols)` is filled cell by cell with `cofactor(i, j)` in row-major order and
then transposed. -/
def adjointE (m : Mat Int) : Except MatErr (Mat Int) :=
  if m.rows ≠ m.cols then .error .notSquare
  else if m.rows = 1 then fromNested [[1]]
  else if m.rows = 2 then
    fromNested [[elem m 1 1, -(elem m 0 1)], [-(elem m 1 0), elem m 0 0]]
  else do
    let base ← mkSized m.rows m.cols
    let cdata ← (List.range (m.rows * m.cols)).mapM fun p =>
      cofactorE m (p / m.cols) (p % m.cols)
    .ok (transposeM { base with data := cdata })

/-- `inverse()` (Matrix.hpp:653-661): requires square, throws on a zero
determinant (exact test), then returns `adjoint() / determinant()` — the
determinant is recomputed for the division, and the division is the
elementwise scalar division (integer truncation at this instantiation). -/
def inverseE (m : Mat Int) : Except MatErr (Mat Int) :=
  if m.rows ≠ m.cols then .error .notSquare
  else do
    let d ← determinant m
    if d = 0 then .error .singularMatrix
    else do
      let adj ← adjointE m
      let d2 ← determinant m
      divScalar adj d2

/-- `operator/(const Matrix&)` (Matrix.hpp:295-301):
`*this * tempMatrix.inverse()`. -/
def divM (m o : Mat Int) : Except MatErr (Mat Int) := do
  let inv ← inverseE o
  mulM m inv

/-- `operator/=` (Matrix.hpp:324-329): `*this = *this / other`. -/
def divAssign (m o : Mat Int) : Except (MatErr × Mat Int) (Mat Int) :=
  inPlace m (divM m o)

/-- `pow(power)` (Matrix.hpp:492-512): requires square; exponent `0` is
`set_identity()`; a positive exponent multiplies a copy of `*this` by
`*this` another `power - 1` times; a negative exponent starts from
`inverse()` and multiplies by a freshly recomputed `inverse()` another
`|power| - 1` times.  The final assignment to `*this` commits only if every
step succeeded. -/
def powE (m : Mat Int) (power : Int) : Except (MatErr × Mat Int) (Mat Int) :=
  if m.rows ≠ m.cols then .error (.notSquare, m)
  else if power = 0 then set_identityE m
  else if power > 0 then
    inPlace m ((List.range (power.toNat - 1)).foldlM (fun acc _ => mulM acc m) m)
  else
    inPlace m (do
      let first ← inverseE m
      (List.range ((-power).toNat - 1)).foldlM
        (fun acc _ => do
          let inv ← inverseE m
          mulM acc inv)
        first)

/-- Extracts the success value of an `Except` computation, with a default
for the error case (used only to state sums over cofactor values that are
separately proven to succeed). -/
def exGetD (x : Except MatErr Int) (d : Int) : Int :=
  match x with
  | .ok v => v
  | .error _ => d

end LinAlg

deriving instance DecidableEq for Except

namespace LinAlg

/-! ### Helper lemmas -/

theorem getD_range_map {α : Type} (z : α) (f : Nat → α) (n p : Nat) :
    ((List.range n).map f).getD p z = if p < n then f p else z := by
  rcases Nat.lt_or_ge p n with h | h
  · rw [List.getD_eq_getElem?_getD, List.getElem?_map, List.getElem?_range h]
    simp [h]
  · rw [List.getD_eq_getElem?_getD, List.getElem?_eq_none (by simpa using h)]
    simp [Nat.not_lt.mpr h]

theorem length_range_map {α : Type} (f : Nat → α) (n : Nat) :
    ((List.range n).map f).length = n := by
  simp

theorem offset_lt {i j rows cols : Nat} (hi : i < rows) (hj : j < cols) :
    i * cols + j < rows * cols :=
  calc i * cols + j < i * cols + cols := Nat.add_lt_add_left hj _
    _ = (i + 1) * cols := (Nat.succ_mul i cols).symm
    _ ≤ rows * cols := Nat.mul_le_mul_right cols (Nat.succ_le_of_lt hi)

theorem row_offset_ne {dst src s j cols : Nat} (h : dst ≠ src)
    (hs : s < cols) (hj : j < cols) : dst * cols + s ≠ src * cols + j := by
  intro he
  apply h
  have hc : 0 < cols := Nat.lt_of_le_of_lt (Nat.zero_le s) hs
  have h1 : (dst * cols + s) / cols = dst := by
    rw [Nat.add_comm, Nat.add_mul_div_right _ _ hc, Nat.div_eq_of_lt hs, Nat.zero_add]
  have h2 : (src * cols + j) / cols = src := by
    rw [Nat.add_comm, Nat.add_mul_div_right _ _ hc, Nat.div_eq_of_lt hj, Nat.zero_add]
  rw [← h1, ← h2, he]

theorem col_offset_ne {dst src t u cols : Nat} (h : dst ≠ src)
    (hd : dst < cols) (hsrc : src < cols) : t * cols + dst ≠ u * cols + src := by
  intro he
  apply h
  have h1 : (t * cols + dst) % cols = dst := by
    rw [Nat.mul_comm, Nat.mul_add_mod, Nat.mod_eq_of_lt hd]
  have h2 : (u * cols + src) % cols = src := by
    rw [Nat.mul_comm, Nat.mul_add_mod, Nat.mod_eq_of_lt hsrc]
  rw [← h1, ← h2, he]

theorem getD_map_lt (f : Int → Int) (l : List Int) (p : Nat) (hp : p < l.length) :
    (l.map f).getD p 0 = f (l.getD p 0) := by
  rw [List.getD_eq_getElem?_getD, List.getElem?_map, List.getElem?_eq_getElem hp,
      List.getD_eq_getElem?_getD, List.getElem?_eq_getElem hp]
  rfl

theorem bind_ok {α β : Type} (a : α) (f : α → Except MatErr β) :
    (Except.ok a : Except MatErr α) >>= f = f a := rfl

theorem bind_err {α β : Type} (e : MatErr) (f : α → Except MatErr β) :
    (Except.error e : Except MatErr α) >>= f = .error e := rfl

theorem replicate_nil_foldlM (k : Nat) (acc : List Int) :
    (List.replicate k ([] : List Int)).foldlM
      (fun acc row =>
        if (0 : Nat) ≠ row.length then
          (.error .invalidArgument : Except MatErr (List Int))
        else .ok (acc ++ row)) acc = .ok acc := by
  induction k generalizing acc with
  | zero => rfl
  | succ j ih =>
    rw [List.replicate_succ, List.foldlM_cons]
    have hstep : (if (0 : Nat) ≠ (([] : List Int)).length then
        (.error .invalidArgument : Except MatErr (List Int))
      else .ok (acc ++ [])) = .ok acc := by simp
    rw [hstep, bind_ok]
    exact ih acc

theorem check_cols_arg_zero_cols {rows : Nat} (h : rows ≠ 0) :
    check_cols_arg rows 0 = .error .invalidShape := by
  simp [check_cols_arg, sizeDiv, h]

theorem check_cols_arg_zero_rows {cols : Nat} (h : cols ≠ 0) :
    check_cols_arg 0 cols = .error .invalidShape := by
  simp [check_cols_arg, h]

theorem check_cols_arg_ok {rows cols c : Nat}
    (h : check_cols_arg rows cols = .ok c) :
    c = cols ∧ (rows = 0 ↔ cols = 0) := by
  by_cases hr : rows = 0
  · subst hr
    by_cases hc : cols = 0
    · subst hc
      simp only [check_cols_arg, ne_eq, not_true_eq_false, if_false,
        reduceIte] at h
      injection h with h1
      exact ⟨h1.symm, by simp⟩
    · rw [check_cols_arg_zero_rows hc] at h
      exact absurd h (by simp)
  · by_cases hc : cols = 0
    · subst hc
      rw [check_cols_arg_zero_cols hr] at h
      exact absurd h (by simp)
    · simp only [check_cols_arg, sizeDiv, hr, ne_eq, not_false_eq_true, if_true,
        if_neg hr] at h
      split at h
      · split at h
        · injection h with h1
          exact ⟨h1.symm, by simp [hr, hc]⟩
        · exact absurd h (by simp)
      · exact absurd h (by simp)

/-! ### Claim theorems -/

/-- C1: checked access `at(row, col)` fails with `OutOfRange` exactly when
`row > rows` or `col > cols`; index values equal to `rows`/`cols` pass the
(off-by-one) validation, and `at` succeeds — performing the read at offset
`row * cols + col` — whenever `row ≤ rows` and `col ≤ cols`; the third
conjunct records that a passing `row = rows` access is nevertheless outside
the valid storage range (`offset ≥ data.length`). -/
theorem at_bound_check (m : Mat Int) (row col : Nat) :
    (matAt m row col = .error .outOfRange ↔ m.rows < row ∨ m.cols < col) ∧
    (row ≤ m.rows → col ≤ m.cols →
      matAt m row col = .ok (m.data.getD (row * m.cols + col) 0)) ∧
    (m.data.length = m.rows * m.cols → row = m.rows →
      m.data.length ≤ row * m.cols + col) := by
  refine ⟨?_, ?_, ?_⟩
  · unfold matAt
    by_cases h : m.rows < row ∨ m.cols < col
    · simp only [h, iff_true]
      have hb : (decide (m.rows < row) || decide (m.cols < col)) = true := by
        rcases h with h | h <;> simp [h]
      rw [if_pos hb]
    · simp only [h, iff_false]
      push_neg at h
      have hb : (decide (m.rows < row) || decide (m.cols < col)) = false := by
        simp [Nat.not_lt.mpr h.1, Nat.not_lt.mpr h.2]
      rw [if_neg (by simp [hb])]
      simp
  · intro hr hc
    unfold matAt
    have hb : (decide (m.rows < row) || decide (m.cols < col)) = false := by
      simp [Nat.not_lt.mpr hr, Nat.not_lt.mpr hc]
    rw [if_neg (by simp [hb])]
  · intro hlen hrow
    subst hrow
    rw [hlen]
    exact Nat.le_add_right _ _

/-- Witness for C1: on a 2×2 matrix the boundary index `(2, 0)` passes the
check and the access succeeds (reading past the storage). -/
theorem at_bound_check_witness :
    matAt { rows := 2, cols := 2, data := [1, 2, 3, 4] } 2 0 =
      .ok (([1, 2, 3, 4] : List Int).getD (2 * 2 + 0) 0) :=
  (at_bound_check { rows := 2, cols := 2, data := [1, 2, 3, 4] } 2 0).2.1
    (by decide) (by decide)

/-- Counterexample to C2: the nested-initializer-list constructor performs
no shape validation, so `Matrix<int>{{}}` succeeds and produces a matrix
with `rows = 1`, `cols = 0` — exactly the `rows == 0 XOR cols == 0`
degenerate shape the claim says no construction path can produce. -/
theorem nested_ctor_xor_counterexample :
    fromNested [[]] = .ok { rows := 1, cols := 0, data := [] } ∧
    ¬ (((1 : Nat) = 0) ↔ ((0 : Nat) = 0)) := by
  exact ⟨by decide, by decide⟩

/-- C2 (amended): the default and sized construction paths (sized, fill,
flat-sequence) do reject `rows XOR cols == 0` — they fail with
`InvalidShape` when `rows > 0 ∧ cols == 0` and when `rows == 0 ∧ cols ≠ 0`,
and on success `rows = 0 ↔ cols = 0` — but the nested-initializer-list
constructor performs no such validation: a nonempty list of `n` empty rows
is accepted and yields `rows = n > 0`, `cols = 0`. -/
theorem ctor_rejects_degenerate (rows cols : Nat) :
    ((0 < rows ∧ cols = 0) ∨ (rows = 0 ∧ cols ≠ 0) →
      mkSized rows cols = .error .invalidShape ∧
      (∀ value, mkFill rows cols value = .error .invalidShape) ∧
      (∀ v, mkFlat rows cols v = .error .invalidShape)) ∧
    (∀ m, mkSized rows cols = .ok m → (m.rows = 0 ↔ m.cols = 0)) ∧
    (∀ n, 0 < n →
      fromNested (List.replicate n ([] : List Int)) =
        .ok { rows := n, cols := 0, data := [] }) := by
  refine ⟨?_, ?_, ?_⟩
  · intro h
    have hcols : check_cols_arg rows cols = .error .invalidShape := by
      rcases h with ⟨hr, hc⟩ | ⟨hr, hc⟩
      · subst hc; exact check_cols_arg_zero_cols (Nat.pos_iff_ne_zero.mp hr)
      · subst hr; exact check_cols_arg_zero_rows hc
    by_cases hm : rows < maxRows
    · refine ⟨?_, fun value => ?_, fun v => ?_⟩ <;>
        simp [mkSized, mkFill, mkFlat, check_rows_arg, hm, hcols, bind_ok, bind_err]
    · refine ⟨?_, fun value => ?_, fun v => ?_⟩ <;>
        simp [mkSized, mkFill, mkFlat, check_rows_arg, hm, bind_ok, bind_err]
  · intro m hok
    unfold mkSized at hok
    by_cases hm : rows < maxRows
    · rw [check_rows_arg, if_pos hm, bind_ok] at hok
      cases hcc : check_cols_arg rows cols with
      | error e => rw [hcc, bind_err] at hok; exact absurd hok (by simp)
      | ok c =>
        rw [hcc, bind_ok, check_template_arg, bind_ok] at hok
        obtain ⟨hc, hiff⟩ := check_cols_arg_ok hcc
        injection hok with h2
        subst h2
        simpa [hc] using hiff
    · rw [check_rows_arg, if_neg hm, bind_err] at hok
      exact absurd hok (by simp)
  · intro n hn
    have hhead : (List.replicate n ([] : List Int)).head?.getD [] = [] := by
      cases n with
      | zero => exact absurd hn (by simp)
      | succ k => simp [List.replicate_succ]
    have hlen : ((List.replicate n ([] : List Int)).head?.getD []).length = 0 := by
      rw [hhead]; rfl
    unfold fromNested
    simp only [hlen, List.length_replicate]
    rw [replicate_nil_foldlM n [], bind_ok]

/-- C10: `max_cols()` is `max_rows() / rows` with no guard on the divisor —
well-defined (`some (maxRows / rows)`) exactly when `rows > 0`; on the
empty matrix it is an unguarded division by zero (`none`).  The internal
shape-validation caller reaches the division only when `rows ≠ 0`: with
`rows = 0`, `check_cols_arg` decides without dividing. -/
theorem max_cols_unguarded_division :
    (∀ m : Mat Int, 0 < m.rows → max_cols m = some (maxRows / m.rows)) ∧
    (∀ m : Mat Int, m.rows = 0 → max_cols m = none) ∧
    (max_cols mkDefault = none) ∧
    (∀ cols, check_cols_arg 0 cols =
      if cols = 0 then .ok 0 else .error .invalidShape) := by
  refine ⟨?_, ?_, ?_, ?_⟩
  · intro m hm
    simp [max_cols, sizeDiv, Nat.pos_iff_ne_zero.mp hm]
  · intro m hm
    simp [max_cols, sizeDiv, hm]
  · simp [max_cols, mkDefault, sizeDiv]
  · intro cols
    by_cases hc : cols = 0 <;> simp [check_cols_arg, hc]

/-- Witness for C10: a matrix with two rows has
`max_cols = max_rows / 2`. -/
theorem max_cols_unguarded_division_witness :
    max_cols { rows := 2, cols := 2, data := ([0, 0, 0, 0] : List Int) } =
      some (maxRows / 2) :=
  max_cols_unguarded_division.1 { rows := 2, cols := 2, data := [0, 0, 0, 0] }
    (by decide)

/-- C7: scalar division (`operator/` and `operator/=`) fails with
`DivisionByZero` exactly on the exact scalar zero, and otherwise produces
the elementwise quotient — `operator/` on a copy (the receiver, a value
here, is untouched) and `operator/=` committing the same data in place. -/
theorem scalar_division_zero_check (m : Mat Int) (v : Int) :
    (v = 0 → divScalar m v = .error .divisionByZero ∧
      divAssignScalar m v = .error (.divisionByZero, m)) ∧
    (v ≠ 0 →
      divScalar m v = .ok { m with data := m.data.map (fun x => Int.tdiv x v) } ∧
      divAssignScalar m v = .ok { m with data := m.data.map (fun x => Int.tdiv x v) } ∧
      (m.data.length = m.rows * m.cols → ∀ i j, i < m.rows → j < m.cols →
        elem { m with data := m.data.map (fun x => Int.tdiv x v) } i j =
          Int.tdiv (elem m i j) v)) := by
  constructor
  · intro hv
    subst hv
    exact ⟨by simp [divScalar], by simp [divAssignScalar]⟩
  · intro hv
    refine ⟨by simp [divScalar, hv], by simp [divAssignScalar, hv], ?_⟩
    intro hlen i j hi hj
    have hp : i * m.cols + j < m.data.length := by
      rw [hlen]; exact offset_lt hi hj
    simp only [elem]
    exact getD_map_lt _ _ _ hp

/-- Witness for C7: dividing a 1×2 matrix by 2 truncates toward zero. -/
theorem scalar_division_zero_check_witness :
    divScalar { rows := 1, cols := 2, data := [7, -7] } 2 =
      .ok { rows := 1, cols := 2,
            data := ([7, -7] : List Int).map (fun x => Int.tdiv x 2) } :=
  ((scalar_division_zero_check { rows := 1, cols := 2, data := [7, -7] } 2).2
    (by decide)).1

/-- C9: a move (construction or assignment from a different object)
transfers the shape and every element to the destination and resets the
source to the valid empty state — the same state as the default-constructed
matrix, which satisfies the storage invariant and remains usable. -/
theorem move_reset_source :
    (∀ m : Mat Int, moveCtor m = (m, mkDefault)) ∧
    (∀ dst src : Mat Int, moveAssign dst src false = (src, mkDefault)) ∧
    (mkDefault.rows = 0 ∧ mkDefault.cols = 0 ∧ mkDefault.data = [] ∧
      mkDefault.data.length = mkDefault.rows * mkDefault.cols) := by
  exact ⟨fun m => rfl, fun dst src => rfl, rfl, rfl, rfl, rfl⟩

/-- Witness for C9 at a concrete matrix. -/
theorem move_reset_source_witness :
    moveCtor { rows := 2, cols := 2, data := [1, 2, 3, 4] } =
      ({ rows := 2, cols := 2, data := [1, 2, 3, 4] }, mkDefault) :=
  move_reset_source.1 { rows := 2, cols := 2, data := [1, 2, 3, 4] }

/-- Witness for C2: the sized constructor rejects `rows = 2, cols = 0`. -/
theorem ctor_rejects_degenerate_witness :
    mkSized 2 0 = .error .invalidShape :=
  ((ctor_rejects_degenerate 2 0).1 (Or.inl ⟨by decide, rfl⟩)).1

/-- C3: `A == B` (without the identity short-circuit) is true iff the shapes
agree and every corresponding element pair is numerically equal, where the
IEC-559 (floating-point) rule is the relative scaled-epsilon comparison
`|a-b| ≤ max(|a|,|b|) * eps` and the integer rule is exact equality; the
identity short-circuit makes any self-comparison true. -/
theorem matrix_equality_rule (iec : Bool) (eps : ℚ) :
    (∀ l r : Mat ℚ, matrixEq false iec eps l r = true ↔
      (l.rows = r.rows ∧ l.cols = r.cols ∧
        ∀ i, i < l.rows → ∀ j, j < l.cols →
          areEqual iec eps (qelem l i j) (qelem r i j) = true)) ∧
    (∀ l : Mat ℚ, matrixEq true iec eps l l = true) ∧
    (∀ a b : ℚ, areEqual true eps a b = true ↔ |a - b| ≤ max |a| |b| * eps) ∧
    (∀ a b : ℚ, areEqual false eps a b = true ↔ a = b) := by
  refine ⟨?_, fun l => rfl, ?_, ?_⟩
  · intro l r
    by_cases hs : l.rows = r.rows ∧ l.cols = r.cols
    · simp [matrixEq, matrixEqCode, hs.1, hs.2, List.all_eq_true, List.mem_range]
    · rw [Decidable.not_and_iff_or_not] at hs
      rcases hs with hs | hs <;>
        simp [matrixEq, matrixEqCode, hs]
  · intro a b
    simp [areEqual]
  · intro a b
    simp [areEqual]

/-- Witness for C3: self-comparison of a concrete matrix short-circuits. -/
theorem matrix_equality_rule_witness :
    matrixEq true false 0 { rows := 1, cols := 1, data := [(1 : ℚ)] }
      { rows := 1, cols := 1, data := [(1 : ℚ)] } = true :=
  (matrix_equality_rule false 0).2.1 { rows := 1, cols := 1, data := [(1 : ℚ)] }

/-! Error-state lemmas for the in-place operations: whenever an in-place
operation fails, the state it reports (the observable `*this`) is its
input — validation precedes every element write. -/

theorem inPlace_error {m s : Mat Int} {x : Except MatErr (Mat Int)} {e : MatErr}
    (h : inPlace m x = .error (e, s)) : s = m := by
  cases x with
  | ok r => simp [inPlace] at h
  | error e2 =>
    simp only [inPlace, Except.error.injEq, Prod.mk.injEq] at h
    exact h.2.symm

theorem set_identityE_error {m s : Mat Int} {e : MatErr}
    (h : set_identityE m = .error (e, s)) : s = m := by
  unfold set_identityE at h
  split at h
  · simp only [Except.error.injEq, Prod.mk.injEq] at h
    exact h.2.symm
  · exact inPlace_error h

theorem set_zeroE_error {m s : Mat Int} {e : MatErr}
    (h : set_zeroE m = .error (e, s)) : s = m :=
  inPlace_error h

theorem set_diagE_error {m s : Mat Int} {v : List Int} {e : MatErr}
    (h : set_diagE m v = .error (e, s)) : s = m := by
  unfold set_diagE at h
  split at h
  · simp only [Except.error.injEq, Prod.mk.injEq] at h
    exact h.2.symm
  · split at h
    · simp only [Except.error.injEq, Prod.mk.injEq] at h
      exact h.2.symm
    · split at h
      case _ e2 heq =>
        injection h with h1
        subst h1
        exact set_zeroE_error heq
      case _ z heq =>
        exact absurd h (by simp)

theorem mult_rowE_error {m s : Mat Int} {row : Nat} {value : Int} {e : MatErr}
    (h : mult_rowE m row value = .error (e, s)) : s = m := by
  unfold mult_rowE at h
  split at h
  · simp only [Except.error.injEq, Prod.mk.injEq] at h
    exact h.2.symm
  · exact absurd h (by simp)

theorem mult_colE_error {m s : Mat Int} {col : Nat} {value : Int} {e : MatErr}
    (h : mult_colE m col value = .error (e, s)) : s = m := by
  unfold mult_colE at h
  split at h
  · simp only [Except.error.injEq, Prod.mk.injEq] at h
    exact h.2.symm
  · exact absurd h (by simp)

theorem add_rowE_error {m s : Mat Int} {a b : Nat} {value : Int} {e : MatErr}
    (h : add_rowE m a b value = .error (e, s)) : s = m := by
  unfold add_rowE at h
  split at h
  · simp only [Except.error.injEq, Prod.mk.injEq] at h
    exact h.2.symm
  · split at h
    · split at h
      · exact mult_rowE_error h
      · exact absurd h (by simp)
    · exact absurd h (by simp)

theorem add_colE_error {m s : Mat Int} {a b : Nat} {value : Int} {e : MatErr}
    (h : add_colE m a b value = .error (e, s)) : s = m := by
  unfold add_colE at h
  split at h
  · simp only [Except.error.injEq, Prod.mk.injEq] at h
    exact h.2.symm
  · split at h
    · split at h
      · exact mult_colE_error h
      · exact absurd h (by simp)
    · exact absurd h (by simp)

theorem powE_error {m s : Mat Int} {p : Int} {e : MatErr}
    (h : powE m p = .error (e, s)) : s = m := by
  unfold powE at h
  split at h
  · simp only [Except.error.injEq, Prod.mk.injEq] at h
    exact h.2.symm
  · split at h
    · exact set_identityE_error h
    · split at h
      · exact inPlace_error h
      · exact inPlace_error h

/-- C5: validate-then-mutate — whenever an in-place operation of the public
interface fails, the observable state of the receiver is exactly the
pre-call state: no element write is committed by a failing operation.  One
conjunct per mutating operation (the compound assignments assign the result
of the binary operation only after it succeeds; the remaining operations
run all their validation before their first write; the operations not
listed — `transpose`, `operator*=`(scalar), the accessors and the
const derivations — either cannot fail or do not mutate). -/
theorem error_leaves_state_unchanged :
    (∀ m v e s, divAssignScalar m v = .error (e, s) → s = m) ∧
    (∀ m o e s, addAssign m o = .error (e, s) → s = m) ∧
    (∀ m o e s, subAssign m o = .error (e, s) → s = m) ∧
    (∀ m o e s, mulAssign m o = .error (e, s) → s = m) ∧
    (∀ m o e s, divAssign m o = .error (e, s) → s = m) ∧
    (∀ m e s, set_identityE m = .error (e, s) → s = m) ∧
    (∀ m e s, set_zeroE m = .error (e, s) → s = m) ∧
    (∀ m v e s, set_diagE m v = .error (e, s) → s = m) ∧
    (∀ m row value e s, set_rowFill m row value = .error (e, s) → s = m) ∧
    (∀ m row v e s, set_rowVec m row v = .error (e, s) → s = m) ∧
    (∀ m col value e s, set_colFill m col value = .error (e, s) → s = m) ∧
    (∀ m col v e s, set_colVec m col v = .error (e, s) → s = m) ∧
    (∀ m a b e s, swap_rowE m a b = .error (e, s) → s = m) ∧
    (∀ m a b e s, swap_colE m a b = .error (e, s) → s = m) ∧
    (∀ m row value e s, mult_rowE m row value = .error (e, s) → s = m) ∧
    (∀ m col value e s, mult_colE m col value = .error (e, s) → s = m) ∧
    (∀ m a b value e s, add_rowE m a b value = .error (e, s) → s = m) ∧
    (∀ m a b value e s, add_colE m a b value = .error (e, s) → s = m) ∧
    (∀ m p e s, powE m p = .error (e, s) → s = m) := by
  refine ⟨?_, ?_, ?_, ?_, ?_, ?_, ?_, ?_, ?_, ?_, ?_, ?_, ?_, ?_, ?_, ?_, ?_, ?_, ?_⟩
  · intro m v e s h
    unfold divAssignScalar at h
    split at h
    · simp only [Except.error.injEq, Prod.mk.injEq] at h
      exact h.2.symm
    · exact absurd h (by simp)
  · exact fun m o e s h => inPlace_error h
  · exact fun m o e s h => inPlace_error h
  · exact fun m o e s h => inPlace_error h
  · exact fun m o e s h => inPlace_error h
  · exact fun m e s h => set_identityE_error h
  · exact fun m e s h => set_zeroE_error h
  · exact fun m v e s h => set_diagE_error h
  · intro m row value e s h
    unfold set_rowFill at h
    split at h
    · simp only [Except.error.injEq, Prod.mk.injEq] at h
      exact h.2.symm
    · exact absurd h (by simp)
  · intro m row v e s h
    unfold set_rowVec at h
    split at h
    · simp only [Except.error.injEq, Prod.mk.injEq] at h
      exact h.2.symm
    · split at h
      · simp only [Except.error.injEq, Prod.mk.injEq] at h
        exact h.2.symm
      · exact absurd h (by simp)
  · intro m col value e s h
    unfold set_colFill at h
    split at h
    · simp only [Except.error.injEq, Prod.mk.injEq] at h
      exact h.2.symm
    · exact absurd h (by simp)
  · intro m col v e s h
    unfold set_colVec at h
    split at h
    · simp only [Except.error.injEq, Prod.mk.injEq] at h
      exact h.2.symm
    · split at h
      · simp only [Except.error.injEq, Prod.mk.injEq] at h
        exact h.2.symm
      · exact absurd h (by simp)
  · intro m a b e s h
    unfold swap_rowE at h
    split at h
    · simp only [Except.error.injEq, Prod.mk.injEq] at h
      exact h.2.symm
    · split at h
      · exact absurd h (by simp)
      · exact absurd h (by simp)
  · intro m a b e s h
    unfold swap_colE at h
    split at h
    · simp only [Except.error.injEq, Prod.mk.injEq] at h
      exact h.2.symm
    · split at h
      · exact absurd h (by simp)
      · exact absurd h (by simp)
  · exact fun m row value e s h => mult_rowE_error h
  · exact fun m col value e s h => mult_colE_error h
  · exact fun m a b value e s h => add_rowE_error h
  · exact fun m a b value e s h => add_colE_error h
  · exact fun m p e s h => powE_error h

/-- Witness for C5: a failing `operator/=` by zero reports the receiver
unchanged. -/
theorem error_leaves_state_unchanged_witness :
    ({ rows := 1, cols := 1, data := [5] } : Mat Int) =
      { rows := 1, cols := 1, data := [5] } :=
  error_leaves_state_unchanged.1 { rows := 1, cols := 1, data := [5] } 0
    .divisionByZero { rows := 1, cols := 1, data := [5] } (by decide)

/-! Pointwise characterization of the line-operation loops. -/

theorem getD_set_ne {l : List Int} {i q : Nat} (a : Int) (h : i ≠ q) :
    (l.set i a).getD q 0 = l.getD q 0 := by
  rw [List.getD_eq_getElem?_getD, List.getD_eq_getElem?_getD, List.getElem?_set,
    if_neg h]

theorem getD_set_self {l : List Int} {i : Nat} (a : Int) (h : i < l.length) :
    (l.set i a).getD i 0 = a := by
  rw [List.getD_eq_getElem?_getD, List.getElem?_set, if_pos rfl, if_pos h]
  rfl

theorem offset_div {i j cols : Nat} (hj : j < cols) : (i * cols + j) / cols = i := by
  have hc : 0 < cols := Nat.lt_of_le_of_lt (Nat.zero_le j) hj
  rw [Nat.add_comm, Nat.add_mul_div_right _ _ hc, Nat.div_eq_of_lt hj, Nat.zero_add]

theorem offset_mod {i j cols : Nat} (hj : j < cols) : (i * cols + j) % cols = j := by
  rw [Nat.mul_comm, Nat.mul_add_mod, Nat.mod_eq_of_lt hj]

theorem row_range_iff {i j dst cols : Nat} (hj : j < cols) :
    (dst * cols ≤ i * cols + j ∧ i * cols + j < (dst + 1) * cols) ↔ i = dst := by
  constructor
  · rintro ⟨h1, h2⟩
    rcases Nat.lt_trichotomy i dst with h | h | h
    · exfalso
      have hlt : i * cols + j < (i + 1) * cols := by
        rw [Nat.succ_mul]; exact Nat.add_lt_add_left hj _
      have hle : (i + 1) * cols ≤ dst * cols := Nat.mul_le_mul_right _ h
      exact absurd h1 (Nat.not_le.mpr (Nat.lt_of_lt_of_le hlt hle))
    · exact h
    · exfalso
      have hle : (dst + 1) * cols ≤ i * cols := Nat.mul_le_mul_right _ h
      have : (dst + 1) * cols ≤ i * cols + j := Nat.le_trans hle (Nat.le_add_right _ _)
      exact absurd h2 (Nat.not_lt.mpr this)
  · rintro rfl
    exact ⟨Nat.le_add_right _ _, by rw [Nat.succ_mul]; exact Nat.add_lt_add_left hj _⟩

theorem col_mod_iff {i j col cols : Nat} (hj : j < cols) :
    (i * cols + j) % cols = col ↔ j = col := by
  rw [offset_mod hj]

theorem addRowLoop_length (k : Int) (cols dst src : Nat) (d : List Int) :
    ∀ t, (addRowLoop k cols dst src t d).length = d.length := by
  intro t
  induction t with
  | zero => rfl
  | succ j ih => simp [addRowLoop, List.length_set, ih]

theorem addColLoop_length (k : Int) (cols dst src : Nat) (d : List Int) :
    ∀ t, (addColLoop k cols dst src t d).length = d.length := by
  intro t
  induction t with
  | zero => rfl
  | succ j ih => simp [addColLoop, List.length_set, ih]

theorem addRowLoop_getD_outside {k : Int} {cols dst src : Nat} {d : List Int} :
    ∀ t q, (∀ s, s < t → q ≠ dst * cols + s) →
      (addRowLoop k cols dst src t d).getD q 0 = d.getD q 0 := by
  intro t
  induction t with
  | zero => intro q _; rfl
  | succ u ih =>
    intro q hq
    have hne : dst * cols + u ≠ q := fun he => hq u (Nat.lt_succ_self u) he.symm
    simp only [addRowLoop]
    rw [getD_set_ne _ hne]
    exact ih q (fun s hs => hq s (Nat.lt_succ_of_lt hs))

theorem addColLoop_getD_outside {k : Int} {cols dst src : Nat} {d : List Int} :
    ∀ t q, (∀ s, s < t → q ≠ s * cols + dst) →
      (addColLoop k cols dst src t d).getD q 0 = d.getD q 0 := by
  intro t
  induction t with
  | zero => intro q _; rfl
  | succ u ih =>
    intro q hq
    have hne : u * cols + dst ≠ q := fun he => hq u (Nat.lt_succ_self u) he.symm
    simp only [addColLoop]
    rw [getD_set_ne _ hne]
    exact ih q (fun s hs => hq s (Nat.lt_succ_of_lt hs))

theorem addRowLoop_getD_at {k : Int} {cols dst src : Nat} (hne : dst ≠ src)
    {d : List Int} (hb : (dst + 1) * cols ≤ d.length) :
    ∀ t, t ≤ cols → ∀ j, j < t →
      (addRowLoop k cols dst src t d).getD (dst * cols + j) 0 =
        d.getD (dst * cols + j) 0 + k * d.getD (src * cols + j) 0 := by
  intro t
  induction t with
  | zero => intro _ j hj; exact absurd hj (Nat.not_lt_zero j)
  | succ u ih =>
    intro ht j hj
    have hu : u < cols := Nat.lt_of_lt_of_le (Nat.lt_succ_self u) ht
    rcases Nat.lt_succ_iff_lt_or_eq.mp hj with hj | rfl
    · simp only [addRowLoop]
      have hne2 : dst * cols + u ≠ dst * cols + j :=
        fun he => absurd (Nat.add_left_cancel he).symm (Nat.ne_of_lt hj)
      rw [getD_set_ne _ hne2]
      exact ih (Nat.le_of_succ_le ht) j hj
    · simp only [addRowLoop]
      have hlt : dst * cols + j < (addRowLoop k cols dst src j d).length := by
        rw [addRowLoop_length]
        exact Nat.lt_of_lt_of_le
          (by rw [Nat.succ_mul]; exact Nat.add_lt_add_left hu _) hb
      rw [getD_set_self _ hlt]
      have hdst : (addRowLoop k cols dst src j d).getD (dst * cols + j) 0 =
          d.getD (dst * cols + j) 0 :=
        addRowLoop_getD_outside j _ (fun s hs he =>
          absurd (Nat.add_left_cancel he) (Nat.ne_of_gt hs))
      have hsrc : (addRowLoop k cols dst src j d).getD (src * cols + j) 0 =
          d.getD (src * cols + j) 0 :=
        addRowLoop_getD_outside j _ (fun s hs he =>
          row_offset_ne hne.symm hu (Nat.lt_trans hs hu) he)
      rw [hdst, hsrc]

theorem addColLoop_getD_at {k : Int} {cols dst src rows : Nat} (hne : dst ≠ src)
    (hdst : dst < cols) (hsrc : src < cols)
    {d : List Int} (hlen : d.length = rows * cols) :
    ∀ t, t ≤ rows → ∀ u, u < t →
      (addColLoop k cols dst src t d).getD (u * cols + dst) 0 =
        d.getD (u * cols + dst) 0 + k * d.getD (u * cols + src) 0 := by
  intro t
  induction t with
  | zero => intro _ u hu; exact absurd hu (Nat.not_lt_zero u)
  | succ w ih =>
    intro ht u hu
    have hw : w < rows := Nat.lt_of_lt_of_le (Nat.lt_succ_self w) ht
    rcases Nat.lt_succ_iff_lt_or_eq.mp hu with hu | rfl
    · simp only [addColLoop]
      have hne2 : w * cols + dst ≠ u * cols + dst := by
        intro he
        have := offset_div (i := w) hdst
        rw [he, offset_div hdst] at this
        exact absurd this (Nat.ne_of_lt hu)
      rw [getD_set_ne _ hne2]
      exact ih (Nat.le_of_succ_le ht) u hu
    · simp only [addColLoop]
      have hlt : u * cols + dst < (addColLoop k cols dst src u d).length := by
        rw [addColLoop_length, hlen]
        exact offset_lt hw hdst
      rw [getD_set_self _ hlt]
      have hd : (addColLoop k cols dst src u d).getD (u * cols + dst) 0 =
          d.getD (u * cols + dst) 0 :=
        addColLoop_getD_outside u _ (fun s hs he => by
          have h1 := offset_div (i := u) hdst
          rw [he, offset_div hdst] at h1
          exact absurd h1 (Nat.ne_of_lt hs))
      have hs2 : (addColLoop k cols dst src u d).getD (u * cols + src) 0 =
          d.getD (u * cols + src) 0 :=
        addColLoop_getD_outside u _ (fun s hs he =>
          col_offset_ne hne.symm hsrc hdst he)
      rw [hd, hs2]

theorem mult_rowE_ok {m : Mat Int} {row : Nat} (hrow : row < m.rows) (value : Int) :
    ∃ r, mult_rowE m row value = .ok r ∧ r.rows = m.rows ∧ r.cols = m.cols ∧
      r.data.length = m.data.length ∧
      (m.data.length = m.rows * m.cols → ∀ i j, i < m.rows → j < m.cols →
        elem r i j = if i = row then elem m i j * value else elem m i j) := by
  have hmain : mult_rowE m row value = .ok { m with data :=
      ((List.range m.data.length).map (fun p =>
        if row * m.cols ≤ p ∧ p < (row + 1) * m.cols then m.data.getD p 0 * value
        else m.data.getD p 0)) } := by
    rw [mult_rowE, if_neg (by omega : ¬ (row ≥ m.rows))]
  refine ⟨_, hmain, rfl, rfl, length_range_map _ _, ?_⟩
  intro hlen i j hi hj
  have hp : i * m.cols + j < m.data.length := by rw [hlen]; exact offset_lt hi hj
  show ((List.range m.data.length).map _).getD (i * m.cols + j) 0 = _
  rw [getD_range_map, if_pos hp]
  by_cases hid : i = row
  · subst hid
    rw [if_pos ((row_range_iff hj).mpr rfl), if_pos rfl]
    rfl
  · rw [if_neg (fun hc => hid ((row_range_iff hj).mp hc)), if_neg hid]
    rfl

theorem mult_colE_ok {m : Mat Int} {col : Nat} (hcol : col < m.cols) (value : Int) :
    ∃ r, mult_colE m col value = .ok r ∧ r.rows = m.rows ∧ r.cols = m.cols ∧
      r.data.length = m.data.length ∧
      (m.data.length = m.rows * m.cols → ∀ i j, i < m.rows → j < m.cols →
        elem r i j = if j = col then elem m i j * value else elem m i j) := by
  have hmain : mult_colE m col value = .ok { m with data :=
      ((List.range m.data.length).map (fun p =>
        if p % m.cols = col then m.data.getD p 0 * value
        else m.data.getD p 0)) } := by
    rw [mult_colE, if_neg (by omega : ¬ (col ≥ m.cols))]
  refine ⟨_, hmain, rfl, rfl, length_range_map _ _, ?_⟩
  intro hlen i j hi hj
  have hp : i * m.cols + j < m.data.length := by rw [hlen]; exact offset_lt hi hj
  show ((List.range m.data.length).map _).getD (i * m.cols + j) 0 = _
  rw [getD_range_map, if_pos hp]
  by_cases hid : j = col
  · subst hid
    rw [if_pos ((col_mod_iff hj).mpr rfl), if_pos rfl]
    rfl
  · rw [if_neg (fun hc => hid ((col_mod_iff hj).mp hc)), if_neg hid]
    rfl

/-- C6: `add_row(dst, src, k)` with valid row indices: when `k` is the exact
scalar zero the matrix is returned entirely unchanged; when `dst ≠ src` (and
`k ≠ 0`) it adds `k * row[src]` into `row[dst]` elementwise, leaving every
other element alone; when `dst = src` it degenerates to scaling row `dst` by
`k + 1` (neither a no-op nor an error); and the same holds for `add_col`
over columns. -/
theorem add_line_semantics (m : Mat Int) (dst src : Nat) (k : Int)
    (hlen : m.data.length = m.rows * m.cols) :
    (dst < m.rows → src < m.rows →
      (add_rowE m dst src 0 = .ok m) ∧
      (k ≠ 0 → dst ≠ src → ∃ r, add_rowE m dst src k = .ok r ∧
        r.rows = m.rows ∧ r.cols = m.cols ∧ r.data.length = m.data.length ∧
        ∀ i j, i < m.rows → j < m.cols →
          elem r i j = if i = dst then elem m i j + k * elem m src j
            else elem m i j) ∧
      (k ≠ 0 → ∃ r, add_rowE m dst dst k = .ok r ∧
        r.rows = m.rows ∧ r.cols = m.cols ∧ r.data.length = m.data.length ∧
        ∀ i j, i < m.rows → j < m.cols →
          elem r i j = if i = dst then elem m i j * (k + 1)
            else elem m i j)) ∧
    (dst < m.cols → src < m.cols →
      (add_colE m dst src 0 = .ok m) ∧
      (k ≠ 0 → dst ≠ src → ∃ r, add_colE m dst src k = .ok r ∧
        r.rows = m.rows ∧ r.cols = m.cols ∧ r.data.length = m.data.length ∧
        ∀ i j, i < m.rows → j < m.cols →
          elem r i j = if j = dst then elem m i j + k * elem m i src
            else elem m i j) ∧
      (k ≠ 0 → ∃ r, add_colE m dst dst k = .ok r ∧
        r.rows = m.rows ∧ r.cols = m.cols ∧ r.data.length = m.data.length ∧
        ∀ i j, i < m.rows → j < m.cols →
          elem r i j = if j = dst then elem m i j * (k + 1)
            else elem m i j)) := by
  constructor
  · intro hdst hsrc
    have hbound : ¬ (dst ≥ m.rows ∨ src ≥ m.rows) := by
      push_neg
      exact ⟨hdst, hsrc⟩
    refine ⟨?_, ?_, ?_⟩
    · rw [add_rowE, if_neg hbound, if_neg (by simp)]
    · intro hk hne
      have hmain : add_rowE m dst src k =
          .ok { m with data := addRowLoop k m.cols dst src m.cols m.data } := by
        rw [add_rowE, if_neg hbound, if_pos hk, if_neg hne]
      refine ⟨_, hmain, rfl, rfl, addRowLoop_length _ _ _ _ _ _, ?_⟩
      intro i j hi hj
      have hb : (dst + 1) * m.cols ≤ m.data.length := by
        rw [hlen]
        exact Nat.mul_le_mul_right _ (Nat.succ_le_of_lt hdst)
      by_cases hid : i = dst
      · subst hid
        show (addRowLoop k m.cols i src m.cols m.data).getD (i * m.cols + j) 0 = _
        rw [addRowLoop_getD_at hne hb m.cols (Nat.le_refl _) j hj, if_pos rfl]
        rfl
      · show (addRowLoop k m.cols dst src m.cols m.data).getD (i * m.cols + j) 0 = _
        rw [addRowLoop_getD_outside m.cols _
          (fun s hs => row_offset_ne hid hj hs), if_neg hid]
        rfl
    · intro hk
      have hbound2 : ¬ (dst ≥ m.rows ∨ dst ≥ m.rows) := by
        push_neg
        exact ⟨hdst, hdst⟩
      obtain ⟨r, hr, h1, h2, h3, h4⟩ := mult_rowE_ok hdst (k + 1)
      exact ⟨r, by rw [add_rowE, if_neg hbound2, if_pos hk, if_pos rfl, hr], h1, h2, h3,
        h4 hlen⟩
  · intro hdst hsrc
    have hbound : ¬ (dst ≥ m.cols ∨ src ≥ m.cols) := by
      push_neg
      exact ⟨hdst, hsrc⟩
    refine ⟨?_, ?_, ?_⟩
    · rw [add_colE, if_neg hbound, if_neg (by simp)]
    · intro hk hne
      have hmain : add_colE m dst src k =
          .ok { m with data := addColLoop k m.cols dst src m.rows m.data } := by
        rw [add_colE, if_neg hbound, if_pos hk, if_neg hne]
      refine ⟨_, hmain, rfl, rfl, addColLoop_length _ _ _ _ _ _, ?_⟩
      intro i j hi hj
      by_cases hid : j = dst
      · subst hid
        show (addColLoop k m.cols j src m.rows m.data).getD (i * m.cols + j) 0 = _
        rw [addColLoop_getD_at hne hdst hsrc hlen m.rows (Nat.le_refl _) i hi,
          if_pos rfl]
        rfl
      · show (addColLoop k m.cols dst src m.rows m.data).getD (i * m.cols + j) 0 = _
        rw [addColLoop_getD_outside m.rows _
          (fun s hs he => hid ((col_mod_iff hj).mp (by rw [he, offset_mod hdst]))),
          if_neg hid]
        rfl
    · intro hk
      have hbound2 : ¬ (dst ≥ m.cols ∨ dst ≥ m.cols) := by
        push_neg
        exact ⟨hdst, hdst⟩
      obtain ⟨r, hr, h1, h2, h3, h4⟩ := mult_colE_ok hdst (k + 1)
      exact ⟨r, by rw [add_colE, if_neg hbound2, if_pos hk, if_pos rfl, hr], h1, h2, h3,
        h4 hlen⟩

/-- Witness for C6: `add_row(0, 1, 2)` on `[[1,2],[3,4]]` gives
`[[7,10],[3,4]]` — checked elementwise through the theorem. -/
theorem add_line_semantics_witness :
    add_rowE { rows := 2, cols := 2, data := [1, 2, 3, 4] } 0 1 0 =
      .ok { rows := 2, cols := 2, data := [1, 2, 3, 4] } :=
  ((add_line_semantics { rows := 2, cols := 2, data := [1, 2, 3, 4] } 0 1 0
    (by decide)).1 (by decide) (by decide)).1

theorem check_cols_arg_error_kind {rows cols : Nat} {e : MatErr}
    (h : check_cols_arg rows cols = .error e) : e = .invalidShape := by
  unfold check_cols_arg at h
  split at h
  · split at h
    · split at h
      · exact absurd h (by simp)
      · injection h with h1; exact h1.symm
    · injection h with h1; exact h1.symm
  · split at h
    · exact absurd h (by simp)
    · injection h with h1; exact h1.symm

theorem mkSized_error_kind {rows cols : Nat} {e : MatErr}
    (h : mkSized rows cols = .error e) : e = .invalidShape := by
  unfold mkSized at h
  by_cases hm : rows < maxRows
  · rw [check_rows_arg, if_pos hm, bind_ok] at h
    cases hcc : check_cols_arg rows cols with
    | error e2 =>
      rw [hcc, bind_err] at h
      injection h with h1
      rw [← h1]
      exact check_cols_arg_error_kind hcc
    | ok c =>
      rw [hcc, bind_ok, check_template_arg, bind_ok] at h
      exact absurd h (by simp)
  · rw [check_rows_arg, if_neg hm, bind_err] at h
    injection h with h1
    exact h1.symm

theorem mkSized_ok_eq {rows cols : Nat} {r0 : Mat Int}
    (h : mkSized rows cols = .ok r0) :
    r0 = { rows := rows, cols := cols, data := List.replicate (rows * cols) 0 } := by
  unfold mkSized at h
  by_cases hm : rows < maxRows
  · rw [check_rows_arg, if_pos hm, bind_ok] at h
    cases hcc : check_cols_arg rows cols with
    | error e2 =>
      rw [hcc, bind_err] at h
      exact absurd h (by simp)
    | ok c =>
      rw [hcc, bind_ok, check_template_arg, bind_ok] at h
      obtain ⟨hc, -⟩ := check_cols_arg_ok hcc
      injection h with h1
      rw [← h1, hc]
  · rw [check_rows_arg, if_neg hm, bind_err] at h
    exact absurd h (by simp)

/-- Counterexample to C8: with `A = [[5]]` (1×1) and `B` the 1×0 matrix
(producible by the nested-initializer-list constructor), the inner
dimensions match (`A.cols = 1 = B.rows`), yet `A * B` does not return a
1×0 product — the sized constructor of the result throws `InvalidShape`
(`rows = 1 > 0` with `cols = 0`). -/
theorem mul_shape_counterexample :
    mulM { rows := 1, cols := 1, data := [5] }
        { rows := 1, cols := 0, data := [] } = .error .invalidShape ∧
    ({ rows := 1, cols := 1, data := ([5] : List Int) } : Mat Int).cols =
      ({ rows := 1, cols := 0, data := ([] : List Int) } : Mat Int).rows :=
  ⟨by decide, rfl⟩

/-- C8 (amended): `A * B` fails with `ShapeMismatch` exactly when
`A.cols ≠ B.rows`.  When the inner dimensions match, the result is first
built by the sized constructor `Matrix(A.rows, B.cols)`, whose validation
can itself fail with `InvalidShape` — in particular whenever `A.rows > 0`
and `B.cols = 0` (a shape the nested-initializer-list constructor can
produce); when that construction succeeds, the product has shape
`A.rows × B.cols` and each cell `(i, j)` is the dot product of row `i` of
`A` and column `j` of `B`, accumulated from the scalar zero. -/
theorem mul_product_semantics (a b : Mat Int) :
    (mulM a b = .error .shapeMismatch ↔ a.cols ≠ b.rows) ∧
    (a.cols = b.rows → 0 < a.rows → b.cols = 0 →
      mulM a b = .error .invalidShape) ∧
    (a.cols = b.rows → ∀ r0, mkSized a.rows b.cols = .ok r0 →
      ∃ r, mulM a b = .ok r ∧ r.rows = a.rows ∧ r.cols = b.cols ∧
        r.data.length = a.rows * b.cols ∧
        ∀ i j, i < a.rows → j < b.cols → elem r i j = dotCell a b i j) := by
  refine ⟨?_, ?_, ?_⟩
  · constructor
    · intro h hc
      rw [mulM, if_neg (fun hne => hne hc)] at h
      cases hms : mkSized a.rows b.cols with
      | error e =>
        rw [hms, bind_err] at h
        injection h with h1
        exact absurd h1.symm (by rw [mkSized_error_kind hms]; simp)
      | ok r0 =>
        rw [hms, bind_ok] at h
        exact absurd h (by simp)
    · intro hne
      rw [mulM, if_pos hne]
  · intro hc hra hbc
    rw [mulM, if_neg (fun hne => hne hc), hbc]
    have hrz : a.rows ≠ 0 := Nat.pos_iff_ne_zero.mp hra
    by_cases hm : a.rows < maxRows
    · rw [mkSized, check_rows_arg, if_pos hm, bind_ok,
        check_cols_arg_zero_cols hrz, bind_err, bind_err]
    · rw [mkSized, check_rows_arg, if_neg hm, bind_err, bind_err]
  · intro hc r0 hok
    have hr0 := mkSized_ok_eq hok
    subst hr0
    have hmain : mulM a b = .ok { rows := a.rows, cols := b.cols, data :=
        ((List.range (List.replicate (a.rows * b.cols) (0 : Int)).length).map
          (fun p => dotCell a b (p / b.cols) (p % b.cols))) } := by
      rw [mulM, if_neg (fun hne => hne hc), hok, bind_ok]
    refine ⟨_, hmain, rfl, rfl, by simp, ?_⟩
    intro i j hi hj
    have hp : i * b.cols + j < (List.replicate (a.rows * b.cols) (0 : Int)).length := by
      rw [List.length_replicate]
      exact offset_lt hi hj
    show ((List.range _).map _).getD (i * b.cols + j) 0 = _
    rw [getD_range_map, if_pos hp, offset_div hj, offset_mod hj]

/-- Witness for C8: a concrete 2×2 product through the theorem. -/
theorem mul_product_semantics_witness :
    mulM { rows := 2, cols := 2, data := [1, 2, 3, 4] }
        { rows := 2, cols := 2, data := [5, 6, 7, 8] } =
      .ok { rows := 2, cols := 2, data := [19, 22, 43, 50] } := by
  obtain ⟨r, hr, -, -, -, -⟩ :=
    (mul_product_semantics { rows := 2, cols := 2, data := [1, 2, 3, 4] }
      { rows := 2, cols := 2, data := [5, 6, 7, 8] }).2.2 rfl
      { rows := 2, cols := 2, data := [0, 0, 0, 0] } (by decide)
  rw [hr]
  have : r = { rows := 2, cols := 2, data := [19, 22, 43, 50] } := by
    have h2 := hr
    rw [show mulM { rows := 2, cols := 2, data := [1, 2, 3, 4] }
        { rows := 2, cols := 2, data := [5, 6, 7, 8] } =
        .ok { rows := 2, cols := 2, data := [19, 22, 43, 50] } from by decide] at h2
    injection h2 with h3
    exact h3.symm
  rw [this]

/-! Support lemmas for the determinant. -/

theorem filter_ne_range_length : ∀ {n r : Nat}, r < n →
    ((List.range n).filter (fun x => x ≠ r)).length = n - 1 := by
  intro n
  induction n with
  | zero => intro r hr; exact absurd hr (Nat.not_lt_zero r)
  | succ k ih =>
    intro r hr
    rw [List.range_succ, List.filter_append]
    rcases Nat.lt_succ_iff_lt_or_eq.mp hr with hr | rfl
    · rw [List.length_append, ih hr]
      have hone : (List.filter (fun x => decide (x ≠ r)) [k]).length = 1 := by
        simp [List.filter, Nat.ne_of_gt hr]
      rw [hone]
      omega
    · have hzero : List.filter (fun x => decide (x ≠ r)) [r] = [] := by
        simp [List.filter]
      rw [hzero, List.length_append]
      have hall : (List.range r).filter (fun x => decide (x ≠ r)) = List.range r := by
        rw [List.filter_eq_self]
        intro a ha
        simp only [List.mem_range] at ha
        simp [Nat.ne_of_lt ha]
      rw [hall]
      simp

theorem sum_map_const_nat (l : List Nat) (f : Nat → Nat) (c : Nat)
    (h : ∀ x ∈ l, f x = c) : (l.map f).sum = l.length * c := by
  induction l with
  | nil => simp
  | cons a t ih =>
    rw [List.map_cons, List.sum_cons, h a (List.mem_cons_self a t),
      ih (fun x hx => h x (List.mem_cons_of_mem a hx)), List.length_cons]
    ring

theorem minorData_length {m : Mat Int} {row col : Nat}
    (hrow : row < m.rows) (hcol : col < m.cols) :
    (minorData m row col).length = (m.rows - 1) * (m.cols - 1) := by
  unfold minorData
  rw [List.length_flatMap,
    sum_map_const_nat _ _ (m.cols - 1) (fun x _ => by
      simp only [Function.comp_apply, List.length_map]
      exact filter_ne_range_length hcol),
    filter_ne_range_length hrow]

theorem check_cols_arg_sq {n : Nat} (h1 : 1 ≤ n) (hcap : n * n ≤ maxRows) :
    check_cols_arg (n - 1) (n - 1) = .ok (n - 1) := by
  rcases Nat.lt_or_ge n 2 with h2 | h2
  · have : n = 1 := by omega
    subst this
    simp [check_cols_arg]
  · have hn0 : n - 1 ≠ 0 := by omega
    have hmul : n * (n - 1) ≤ maxRows :=
      Nat.le_trans (Nat.mul_le_mul_left n (Nat.sub_le n 1)) hcap
    have hlt : n - 1 < maxRows / (n - 1) := by
      rw [Nat.lt_iff_add_one_le, Nat.le_div_iff_mul_le (by omega : 0 < n - 1)]
      calc (n - 1 + 1) * (n - 1) = n * (n - 1) := by rw [Nat.sub_add_cancel h1]
        _ ≤ maxRows := hmul
    unfold check_cols_arg sizeDiv
    rw [if_pos hn0, if_neg hn0]
    simp [hlt, Nat.pos_iff_ne_zero.mpr hn0]

theorem minorE_ok {m : Mat Int} {row col : Nat} (hsq : m.rows = m.cols)
    (_hlen : m.data.length = m.rows * m.cols) (hcap : m.rows * m.rows ≤ maxRows)
    (hrow : row < m.rows) (hcol : col < m.cols) :
    minorE m row col =
      .ok { rows := m.rows - 1, cols := m.cols - 1, data := minorData m row col } := by
  have hr1 : 1 ≤ m.rows := by omega
  have hrm : m.rows ≤ maxRows := by
    have h2 : m.rows * 1 ≤ m.rows * m.rows := Nat.mul_le_mul_left _ hr1
    omega
  rw [minorE, if_neg (fun h => h hsq), if_neg (by omega : ¬ (row ≥ m.rows)),
    if_neg (by omega : ¬ (col ≥ m.cols))]
  rw [mkFlat, check_rows_arg, if_pos (by omega : m.rows - 1 < maxRows), bind_ok]
  have hcc : check_cols_arg (m.rows - 1) (m.cols - 1) = .ok (m.cols - 1) := by
    rw [← hsq]
    exact check_cols_arg_sq hr1 hcap
  rw [hcc, bind_ok, check_template_arg, bind_ok,
    if_neg (by rw [minorData_length hrow hcol]; omega)]

theorem foldlM_ok (l : List Nat) (g : Int → Nat → Except MatErr Int)
    (h : ∀ x ∈ l, ∀ acc, ∃ v, g acc x = .ok v) :
    ∀ init, ∃ v, l.foldlM g init = .ok v := by
  induction l with
  | nil => intro init; exact ⟨init, rfl⟩
  | cons a t ih =>
    intro init
    obtain ⟨v, hv⟩ := h a (List.mem_cons_self a t) init
    obtain ⟨w, hw⟩ := ih (fun x hx => h x (List.mem_cons_of_mem a hx)) v
    exact ⟨w, by rw [List.foldlM_cons, hv, bind_ok, hw]⟩

theorem foldlM_value (l : List Nat) (g : Int → Nat → Except MatErr Int)
    (f : Nat → Int) (h : ∀ x ∈ l, ∀ acc, g acc x = .ok (acc + f x)) :
    ∀ init, l.foldlM g init = .ok (init + (l.map f).sum) := by
  induction l with
  | nil => intro init; simp only [List.foldlM_nil, List.map_nil, List.sum_nil,
      Int.add_zero]; rfl
  | cons a t ih =>
    intro init
    rw [List.foldlM_cons, h a (List.mem_cons_self a t), bind_ok,
      ih (fun x hx => h x (List.mem_cons_of_mem a hx))]
    simp [Int.add_assoc]

theorem detAux_ok : ∀ (fuel : Nat) (m : Mat Int), m.rows = m.cols →
    m.data.length = m.rows * m.cols → m.rows * m.rows ≤ maxRows →
    m.rows < fuel → ∃ v, detAux fuel m = .ok v := by
  intro fuel
  induction fuel with
  | zero => intro m _ _ _ hf; exact absurd hf (Nat.not_lt_zero _)
  | succ f ih =>
    intro m hsq hlen hcap hf
    rw [detAux.eq_2, if_neg (fun h => h hsq)]
    by_cases h1 : m.rows = 1
    · rw [if_pos h1, matAt, if_neg (by simp)]
      exact ⟨_, rfl⟩
    · rw [if_neg h1]
      by_cases h2 : m.rows = 2
      · rw [if_pos h2]
        have hc2 : m.cols = 2 := by rw [← hsq, h2]
        rw [matAt, if_neg (by simp [h2, hc2]), bind_ok,
          matAt, if_neg (by simp [h2, hc2]), bind_ok,
          matAt, if_neg (by simp [h2, hc2]), bind_ok,
          matAt, if_neg (by simp [h2, hc2]), bind_ok]
        exact ⟨_, rfl⟩
      · rw [if_neg h2]
        apply foldlM_ok
        intro i hi acc
        rw [List.mem_range] at hi
        have hi' : i < m.rows := by rw [hsq]; exact hi
        have hn3 : 3 ≤ m.rows := by omega
        have hmE := minorE_ok hsq hlen hcap (by omega : 0 < m.rows) hi
        rw [hmE, bind_ok]
        obtain ⟨v, hv⟩ := ih
          { rows := m.rows - 1, cols := m.cols - 1, data := minorData m 0 i }
          (by show m.rows - 1 = m.cols - 1; rw [hsq])
          (by show (minorData m 0 i).length = (m.rows - 1) * (m.cols - 1)
              exact minorData_length (by omega : 0 < m.rows) hi)
          (by show (m.rows - 1) * (m.rows - 1) ≤ maxRows
              exact Nat.le_trans
                (Nat.mul_le_mul (Nat.sub_le _ _) (Nat.sub_le _ _)) hcap)
          (by show m.rows - 1 < f; omega)
        rw [hv, bind_ok]
        exact ⟨_, rfl⟩

/-- C4: `determinant()` requires square (`NotSquare` otherwise); a 1×1
matrix yields its single element; a 2×2 matrix `[[a,b],[c,d]]` yields
exactly `a*d - b*c`; for `n ≥ 3` (within the capacity bound, with the
storage invariant) it is the first-row Laplace expansion — every
`cofactor(0, j)` succeeds and the determinant is
`Σ_j element(0, j) * cofactor(0, j)` — where `cofactor(r, c)` is
`(-1)^(r+c) * determinant(minor(r, c))` (last conjunct). -/
theorem determinant_laplace :
    (∀ m : Mat Int, m.rows ≠ m.cols → determinant m = .error .notSquare) ∧
    (∀ m : Mat Int, m.rows = 1 → m.cols = 1 →
      determinant m = .ok (m.data.getD 0 0)) ∧
    (∀ a b c d : Int,
      determinant { rows := 2, cols := 2, data := [a, b, c, d] } =
        .ok (a * d - b * c)) ∧
    (∀ m : Mat Int, m.rows = m.cols → m.data.length = m.rows * m.cols →
      m.rows * m.rows ≤ maxRows → 3 ≤ m.rows →
      (∀ j, j < m.cols → ∃ cj, cofactorE m 0 j = .ok cj) ∧
      determinant m = .ok (((List.range m.cols).map
        (fun j => m.data.getD j 0 * exGetD (cofactorE m 0 j) 0)).sum)) ∧
    (∀ (m : Mat Int) (r c : Nat), m.rows = m.cols →
      m.data.length = m.rows * m.cols → m.rows * m.rows ≤ maxRows →
      r < m.rows → c < m.cols →
      ∃ mm dm, minorE m r c = .ok mm ∧ determinant mm = .ok dm ∧
        cofactorE m r c = .ok ((-1 : Int) ^ (r + c) * dm)) := by
  refine ⟨?_, ?_, ?_, ?_, ?_⟩
  · intro m h
    rw [determinant, detAux.eq_2, if_pos h]
  · intro m h1 hc1
    rw [determinant, detAux.eq_2, if_neg (by rw [h1, hc1]; simp), if_pos h1,
      matAt, if_neg (by simp)]
    simp
  · intro a b c d
    rfl
  · intro m hsq hlen hcap h3
    have h1 : m.rows ≠ 1 := by omega
    have h2 : m.rows ≠ 2 := by omega
    have hkey : ∀ i, i < m.cols → ∃ d,
        detAux m.rows
          { rows := m.rows - 1, cols := m.cols - 1, data := minorData m 0 i } =
          .ok d ∧
        cofactorE m 0 i = .ok ((-1 : Int) ^ (0 + i) * d) := by
      intro i hi
      have hmE := minorE_ok hsq hlen hcap (by omega : 0 < m.rows) hi
      obtain ⟨d, hd⟩ := detAux_ok m.rows
        { rows := m.rows - 1, cols := m.cols - 1, data := minorData m 0 i }
        (by show m.rows - 1 = m.cols - 1; rw [hsq])
        (by show (minorData m 0 i).length = (m.rows - 1) * (m.cols - 1)
            exact minorData_length (by omega : 0 < m.rows) hi)
        (by show (m.rows - 1) * (m.rows - 1) ≤ maxRows
            exact Nat.le_trans
              (Nat.mul_le_mul (Nat.sub_le _ _) (Nat.sub_le _ _)) hcap)
        (by show m.rows - 1 < m.rows; omega)
      have hd2 : determinant
          { rows := m.rows - 1, cols := m.cols - 1, data := minorData m 0 i } =
          .ok d := by
        rw [determinant]
        show detAux (m.rows - 1 + 1) _ = .ok d
        rw [Nat.sub_add_cancel (by omega : 1 ≤ m.rows)]
        exact hd
      refine ⟨d, hd, ?_⟩
      rw [cofactorE, hmE, bind_ok, hd2, bind_ok]
    constructor
    · intro j hj
      obtain ⟨d, -, hc⟩ := hkey j hj
      exact ⟨_, hc⟩
    · rw [determinant, detAux.eq_2, if_neg (fun h => h hsq), if_neg h1, if_neg h2]
      rw [foldlM_value _ _
        (fun j => m.data.getD j 0 * exGetD (cofactorE m 0 j) 0) ?hstep 0]
      · rw [Int.zero_add]
      case hstep =>
        intro i hi acc
        rw [List.mem_range] at hi
        obtain ⟨d, hd, hc⟩ := hkey i hi
        rw [minorE_ok hsq hlen hcap (by omega : 0 < m.rows) hi, bind_ok, hd,
          bind_ok]
        simp only [hc, exGetD]
  · intro m r c hsq hlen hcap hr hc
    have hmE := minorE_ok hsq hlen hcap hr hc
    obtain ⟨d, hd⟩ := detAux_ok (m.rows - 1 + 1)
      { rows := m.rows - 1, cols := m.cols - 1, data := minorData m r c }
      (by show m.rows - 1 = m.cols - 1; rw [hsq])
      (by show (minorData m r c).length = (m.rows - 1) * (m.cols - 1)
          exact minorData_length hr hc)
      (by show (m.rows - 1) * (m.rows - 1) ≤ maxRows
          exact Nat.le_trans
            (Nat.mul_le_mul (Nat.sub_le _ _) (Nat.sub_le _ _)) hcap)
      (by show m.rows - 1 < m.rows - 1 + 1; omega)
    have hd2 : determinant
        { rows := m.rows - 1, cols := m.cols - 1, data := minorData m r c } =
        .ok d := by
      rw [determinant]
      exact hd
    refine ⟨_, d, hmE, hd2, ?_⟩
    rw [cofactorE, hmE, bind_ok, hd2, bind_ok]

/-- Witness for C4: the cofactor identity at `(0,0)` of a concrete 3×3
matrix, through the theorem. -/
theorem determinant_laplace_witness :
    ∃ mm dm,
      minorE { rows := 3, cols := 3, data := [1, 2, 3, 4, 5, 6, 7, 8, 10] } 0 0 =
        .ok mm ∧
      determinant mm = .ok dm ∧
      cofactorE { rows := 3, cols := 3, data := [1, 2, 3, 4, 5, 6, 7, 8, 10] } 0 0 =
        .ok ((-1 : Int) ^ (0 + 0) * dm) :=
  determinant_laplace.2.2.2.2
    { rows := 3, cols := 3, data := [1, 2, 3, 4, 5, 6, 7, 8, 10] } 0 0
    rfl (by decide) (by decide) (by decide) (by decide)

end LinAlg
